import Mathlib

/-!
Verification of the RustyTasks task-store (`src/tasks.rs`, `src/main.rs`).

The task store persists a JSON array of task records in a single journal
file.  We shallowly embed the store: task records become a Lean structure,
the journal file becomes an explicit `FileState`, the serde_json layer
becomes an executable encoder/decoder over a small JSON value type, and
each store operation (`add_task`, `complete_task`, `list_tasks`,
`search_tasks`, `Task::new`) becomes a pure function on file states.

Timestamps (`DateTime<Utc>` at second precision, as serialized by
chrono's `ts_seconds`) are embedded as `Int` Unix epoch seconds; the
calendar conversions performed inside chrono (`NaiveDate` to epoch
seconds and the `year()/month()/day()` accessors) are embedded by the
standard proleptic-Gregorian days/date bijection.
-/

namespace RustyTasks

open scoped List

/-! ### Calendar arithmetic (chrono's proleptic Gregorian calendar) -/

/-- Leap-year test of the proleptic Gregorian calendar. -/
def isLeap (y : Int) : Bool :=
  y % 4 == 0 && (!(y % 100 == 0) || y % 400 == 0)

/-- Number of days in month `m` of year `y`. -/
def daysInMonth (y : Int) (m : Nat) : Nat :=
  if m = 2 then (if isLeap y then 29 else 28)
  else if m = 4 ∨ m = 6 ∨ m = 9 ∨ m = 11 then 30
  else 31

/-- Predicate `validDate y m d` holds when `y-m-d` is a real calendar date; this is
exactly the condition under which chrono's `NaiveDate::parse_from_str`
accepts a `YYYY-MM-DD` string. -/
def validDate (y : Int) (m d : Nat) : Bool :=
  decide (1 ≤ m) && decide (m ≤ 12) && decide (1 ≤ d) && decide (d ≤ daysInMonth y m)

/-- In the March-based year numbering of the days/date conversion, the
year-of-era `yoe` contains a leap day iff civil year `yoe + 1` (mod 400)
is a leap year. -/
def marLeap (yoe : Nat) : Bool :=
  (yoe + 1) % 4 == 0 && (!((yoe + 1) % 100 == 0) || (yoe + 1) % 400 == 0)

/-- Day-of-era on which March-based year `yoe` of an era starts. -/
def yearStart (yoe : Nat) : Nat := yoe * 365 + yoe / 4 - yoe / 100

/-- Leap-adjusted day count used to recover the year-of-era from a
day-of-era. -/
def adjDays (doe : Nat) : Nat := doe - doe / 1460 + doe / 36524 - doe / 146096

/-- Year-of-era of a day-of-era. -/
def yoeOf (doe : Nat) : Nat := adjDays doe / 365

/-- Days between `y-m-d` and 1970-01-01 in the proleptic Gregorian
calendar (the count chrono's epoch-seconds serialization is based on). -/
def daysFromCivil (y : Int) (m d : Nat) : Int :=
  let y' : Int := if m ≤ 2 then y - 1 else y
  (y' / 400) * 146097 +
    ((yearStart ((y' % 400).toNat) + ((153 * ((m + 9) % 12) + 2) / 5 + (d - 1)) : Nat) : Int)
    - 719468

/-- Inverse conversion: the `(year, month, day)` of the date `z` days after
1970-01-01; this embeds chrono's `year()/month()/day()` accessors. -/
def civilFromDays (z : Int) : Int × Nat × Nat :=
  let era : Int := (z + 719468) / 146097
  let doe : Nat := ((z + 719468) % 146097).toNat
  let yoe : Nat := yoeOf doe
  let doy : Nat := doe - yearStart yoe
  let mp : Nat := (5 * doy + 2) / 153
  let m : Nat := if mp < 10 then mp + 3 else mp - 9
  (era * 400 + yoe + (if m ≤ 2 then 1 else 0), m, doy - (153 * mp + 2) / 5 + 1)

/-- Epoch seconds of `y-m-d` at 00:00:00 UTC (chrono's
`Utc.from_utc_datetime(date.and_hms(0,0,0)).timestamp()`). -/
def dateToSecs (y : Int) (m d : Nat) : Int := 86400 * daysFromCivil y m d

/-- Calendar date of an epoch-seconds timestamp. -/
def secsToDate (s : Int) : Int × Nat × Nat := civilFromDays (s / 86400)

/-! ### The Task record (`struct Task` in `src/tasks.rs`)

`created_at` and `due_date` are `DateTime<Utc>` values serialized as
integer epoch seconds (`ts_seconds` / `ts_seconds_option`); they are
embedded as `Int`.  `id` is a `usize`. -/

structure Task where
  id : Nat
  text : String
  created_at : Int
  due_date : Option Int
  priority : Option String
  category : Option String
deriving DecidableEq, Repr

/-- Rank function `Task::priority_order` used by every sort and comparison. -/
def Task.priority_order (t : Task) : Nat :=
  match t.priority with
  | some "high" => 1
  | some "medium" => 2
  | some "low" => 3
  | _ => 4

/-- The boolean comparison induced by `impl Ord for Task`
(`self.priority_order().cmp(&other.priority_order())`). -/
def taskLe (a b : Task) : Bool := decide (a.priority_order ≤ b.priority_order)

/-- Embeds `tasks.sort()`: Rust's stable sort under the `Ord` instance.  A stable
sort for a total preorder is unique, so stable merge sort embeds it. -/
def sortTasks (ts : List Task) : List Task := ts.mergeSort taskLe

/-- Embeds `tasks.sort_by(|a, b| b.cmp(a))`: stable sort under the reversed
comparator, used by `list_tasks` for the "desc" order. -/
def sortTasksDesc (ts : List Task) : List Task := ts.mergeSort (fun a b => taskLe b a)

/-! ### The serde_json layer

`Task` derives `Serialize`/`Deserialize`; the journal file holds a JSON
array of task objects.  `JValue` is the JSON value type; the encoder
writes the six fields in declaration order, and the decoder embeds the
derived deserializer: `id` has `#[serde(default)]` (missing means `0`),
`text`, `created_at` and `due_date` are required (`due_date` nullable),
and the plain `Option` fields `priority`/`category` may be missing. -/

inductive JValue where
  | null
  | num (n : Int)
  | str (s : String)
  | arr (elems : List JValue)
  | obj (fields : List (String × JValue))

def encOptNum : Option Int → JValue
  | none => .null
  | some n => .num n

def encOptStr : Option String → JValue
  | none => .null
  | some s => .str s

def encodeTask (t : Task) : JValue :=
  .obj [("id", .num t.id), ("text", .str t.text), ("created_at", .num t.created_at),
        ("due_date", encOptNum t.due_date), ("priority", encOptStr t.priority),
        ("category", encOptStr t.category)]

def encodeTasks (ts : List Task) : JValue := .arr (ts.map encodeTask)

def lookupField : List (String × JValue) → String → Option JValue
  | [], _ => none
  | (k, v) :: rest, key => if k = key then some v else lookupField rest key

def decodeId (v : Option JValue) : Option Nat :=
  match v with
  | none => some 0
  | some (.num n) => if 0 ≤ n then some n.toNat else none
  | some _ => none

def decodeStr (v : Option JValue) : Option String :=
  match v with
  | some (.str s) => some s
  | _ => none

def decodeNum (v : Option JValue) : Option Int :=
  match v with
  | some (.num n) => some n
  | _ => none

def decodeOptNum (v : Option JValue) : Option (Option Int) :=
  match v with
  | some .null => some none
  | some (.num n) => some (some n)
  | _ => none

def decodeOptStr (v : Option JValue) : Option (Option String) :=
  match v with
  | none => some none
  | some .null => some none
  | some (.str s) => some (some s)
  | some _ => none

def decodeTask (v : JValue) : Option Task :=
  match v with
  | .obj fields =>
    match decodeId (lookupField fields "id"), decodeStr (lookupField fields "text"),
        decodeNum (lookupField fields "created_at"),
        decodeOptNum (lookupField fields "due_date"),
        decodeOptStr (lookupField fields "priority"),
        decodeOptStr (lookupField fields "category") with
    | some i, some tx, some ca, some dd, some pr, some cat =>
      some ⟨i, tx, ca, dd, pr, cat⟩
    | _, _, _, _, _, _ => none
  | _ => none

def decodeTaskList : List JValue → Option (List Task)
  | [] => some []
  | v :: vs =>
    match decodeTask v, decodeTaskList vs with
    | some t, some ts => some (t :: ts)
    | _, _ => none

def decodeTasks (v : JValue) : Option (List Task) :=
  match v with
  | .arr elems => decodeTaskList elems
  | _ => none

/-! ### The journal file and `collect_tasks`

A file is missing or holds some content.  Content is empty (zero-length
file), a complete JSON document, or a non-empty but prematurely ended
document.  `serde_json::from_reader` reports an end-of-input error for
both an empty and a truncated document (`Error::is_eof`), which
`collect_tasks` converts to the empty list; any other failure is
propagated (an `InvalidData` I/O error, the spec's `ParseError`). -/

inductive JsonContent where
  | emptyContent
  | truncated
  | jsonContent (v : JValue)

inductive FileState where
  | missing
  | stored (c : JsonContent)

inductive ErrKind where
  | notFound
  | invalidInput
  | parseError
deriving DecidableEq, Repr

def collect_tasks : JsonContent → Except ErrKind (List Task)
  | .emptyContent => .ok []
  | .truncated => .ok []
  | .jsonContent v =>
    match decodeTasks v with
    | some ts => .ok ts
    | none => .error .parseError

/-! ### Store operations

Each operation returns the Rust function's result together with the file
state it leaves behind (the source validates before any write, so on
failure the previous contents survive; `add_task` opens with
`create(true)`, so a missing file is created empty even when the
subsequent read fails). -/

def add_task (fs : FileState) (task : Task) : Except ErrKind Unit × FileState :=
  let c := match fs with
    | .missing => JsonContent.emptyContent
    | .stored c => c
  match collect_tasks c with
  | .error e => (.error e, .stored c)
  | .ok tasks =>
    let task := { task with id := tasks.length + 1 }
    let tasks := sortTasks (tasks ++ [task])
    (.ok (), .stored (.jsonContent (encodeTasks tasks)))

def complete_task (fs : FileState) (task_position : Nat) : Except ErrKind Unit × FileState :=
  match fs with
  | .missing => (.error .notFound, .missing)
  | .stored c =>
    match collect_tasks c with
    | .error e => (.error e, .stored c)
    | .ok tasks =>
      if task_position = 0 ∨ tasks.length < task_position then
        (.error .invalidInput, .stored c)
      else
        (.ok (), .stored (.jsonContent (encodeTasks (sortTasks (tasks.eraseIdx (task_position - 1))))))

/-- Embeds `task.category.as_ref().map_or(true, |c| task.category.as_ref() == Some(c))`. -/
def matchesCategory (category : Option String) (t : Task) : Bool :=
  match category with
  | none => true
  | some c => t.category == some c

/-- The display loop of `list_tasks`: the counter advances only on rows
that pass the category filter. -/
def renderRows (category : Option String) (order : Nat) : List Task → List (Nat × Task)
  | [] => []
  | t :: ts =>
    if matchesCategory category t then (order, t) :: renderRows category (order + 1) ts
    else renderRows category order ts

inductive ListOutput where
  | emptyMessage
  | table (rows : List (Nat × Task))

def list_tasks (fs : FileState) (category : Option String) (sort_order : String) :
    Except ErrKind ListOutput :=
  match fs with
  | .missing => .error .notFound
  | .stored c =>
    match collect_tasks c with
    | .error e => .error e
    | .ok tasks =>
      let sorted := match sort_order with
        | "desc" => sortTasksDesc tasks
        | _ => sortTasks tasks
      if sorted.isEmpty then .ok .emptyMessage
      else .ok (.table (renderRows category 1 sorted))

/-- Embeds `task.text.contains(&keyword)`: case-sensitive substring test. -/
def textContains (hay keyword : String) : Bool := decide (keyword.toList <:+: hay.toList)

inductive SearchOutput where
  | noMatches (keyword : String)
  | table (tasks : List Task)

def search_tasks (fs : FileState) (keyword : String) : Except ErrKind SearchOutput :=
  match fs with
  | .missing => .error .notFound
  | .stored c =>
    match collect_tasks c with
    | .error e => .error e
    | .ok tasks =>
      let filtered := tasks.filter (fun t => textContains t.text keyword)
      if filtered.isEmpty then .ok (.noMatches keyword)
      else .ok (.table filtered)

/-! ### `Task::new` and the `add` subcommand -/

/-- One character of the regex class `\d`. -/
def isDigitChar (c : Char) : Bool := 48 ≤ c.toNat && c.toNat ≤ 57

/-- The regex `^\d\x7b4\x7d-\d\x7b2\x7d-\d\x7b2\x7d$` from `Task::new`. -/
def datePattern (s : String) : Bool :=
  match s.toList with
  | [c1, c2, c3, c4, s1, c5, c6, s2, c7, c8] =>
    isDigitChar c1 && isDigitChar c2 && isDigitChar c3 && isDigitChar c4 && s1 == '-' &&
      isDigitChar c5 && isDigitChar c6 && s2 == '-' && isDigitChar c7 && isDigitChar c8
  | _ => false

def digitVal (c : Char) : Nat := c.toNat - 48

/-- Numeric year/month/day fields of a pattern-matching date string. -/
def parseYmd (s : String) : Nat × Nat × Nat :=
  match s.toList with
  | [c1, c2, c3, c4, _, c5, c6, _, c7, c8] =>
    (1000 * digitVal c1 + 100 * digitVal c2 + 10 * digitVal c3 + digitVal c4,
      10 * digitVal c5 + digitVal c6, 10 * digitVal c7 + digitVal c8)
  | _ => (0, 0, 0)

/-- Embeds `Task::new`: checks the regex, then parses with chrono (which fails on
a non-existent calendar date; that error is mapped to `InvalidInput`),
and stores midnight UTC of the parsed date.  `now` is the caller's clock. -/
def Task.new (text : String) (due_date : Option String) (now : Int) : Except ErrKind Task :=
  match due_date with
  | some date_str =>
    if datePattern date_str then
      match parseYmd date_str with
      | (y, m, d) =>
        if validDate y m d then
          .ok ⟨0, text, now, some (dateToSecs y m d), none, none⟩
        else .error .invalidInput
    else .error .invalidInput
  | none => .ok ⟨0, text, now, none, none, none⟩

/-- The `Add` arm of `main`: build the task, fill in the prompted priority
and category, then `add_task`.  A `Task::new` failure happens before the
journal file is touched. -/
def addOperation (fs : FileState) (text : String) (due : Option String) (now : Int)
    (priority category : String) : Except ErrKind Unit × FileState :=
  match Task.new text due now with
  | .error e => (.error e, fs)
  | .ok t => add_task fs { t with priority := some priority, category := some category }

/-! ### Sequences of mutating operations (for id-assignment claims) -/

inductive Op where
  | addOp (text : String) (due : Option String) (now : Int) (priority category : String)
  | doneOp (position : Nat)

def applyOp (fs : FileState) : Op → FileState
  | .addOp text due now p c => (addOperation fs text due now p c).2
  | .doneOp pos => (complete_task fs pos).2

def runOps (fs : FileState) : List Op → FileState
  | [] => fs
  | op :: ops => runOps (applyOp fs op) ops

/-- The collection a file state holds (empty for a missing or unreadable
file); mutating operations read exactly this list on a well-formed store. -/
def fileTasks : FileState → List Task
  | .missing => []
  | .stored c =>
    match collect_tasks c with
    | .ok ts => ts
    | .error _ => []

/-- File states reachable by the store itself: missing, or holding the
serialization of some collection. -/
def GoodFile : FileState → Prop
  | .missing => True
  | .stored c => ∃ ts, c = .jsonContent (encodeTasks ts)

/-! ### Helper theorems -/

theorem adjDays_step (doe : Nat) : adjDays doe ≤ adjDays (doe + 1) := by
  unfold adjDays; omega

theorem adjDays_mono {a b : Nat} (h : a ≤ b) : adjDays a ≤ adjDays b := by
  induction b with
  | zero =>
    have ha : a = 0 := Nat.le_zero.mp h
    subst ha; exact Nat.le_refl _
  | succ n ih =>
    rcases Nat.lt_or_ge a (n + 1) with h' | h'
    · exact Nat.le_trans (ih (by omega)) (adjDays_step n)
    · have ha : a = n + 1 := by omega
      subst ha; exact Nat.le_refl _

theorem yoeOf_mono {a b : Nat} (h : a ≤ b) : yoeOf a ≤ yoeOf b :=
  Nat.div_le_div_right (adjDays_mono h)

set_option maxRecDepth 2000 in
theorem yoeOf_bounds : ∀ yoe < 400,
    yoeOf (yearStart yoe) = yoe ∧
    yoeOf (yearStart yoe + (if marLeap yoe then 365 else 364)) = yoe := by
  decide

theorem yoe_recovery (yoe doy : Nat) (h1 : yoe < 400) (h2 : doy < 366)
    (h3 : doy = 365 → marLeap yoe = true) :
    yoeOf (yearStart yoe + doy) = yoe ∧ yearStart yoe + doy ≤ 146096 := by
  obtain ⟨hlo, hhi⟩ := yoeOf_bounds yoe h1
  constructor
  · have h4 : yearStart yoe ≤ yearStart yoe + doy := by omega
    have h5 : yearStart yoe + doy ≤ yearStart yoe + (if marLeap yoe then 365 else 364) := by
      by_cases hml : marLeap yoe
      · simp [hml]; omega
      · have hd : doy ≤ 364 := by
          rcases Nat.lt_or_ge doy 365 with h' | h'
          · omega
          · exact absurd (h3 (by omega)) hml
        simp [hml]; omega
    have m4 := yoeOf_mono h4
    have m5 := yoeOf_mono h5
    omega
  · by_cases hml : marLeap yoe
    · unfold yearStart at *; omega
    · have hd : doy ≤ 364 := by
        rcases Nat.lt_or_ge doy 365 with h' | h'
        · omega
        · exact absurd (h3 (by omega)) hml
      unfold yearStart at *; omega

theorem month_core : ∀ m, 1 ≤ m → m ≤ 12 → ∀ d, 1 ≤ d → d ≤ daysInMonth 0 m →
    (5 * ((153 * ((m + 9) % 12) + 2) / 5 + (d - 1)) + 2) / 153 = (m + 9) % 12 ∧
    ((153 * ((m + 9) % 12) + 2) / 5 + (d - 1)) - (153 * ((m + 9) % 12) + 2) / 5 + 1 = d ∧
    ((153 * ((m + 9) % 12) + 2) / 5 + (d - 1)) ≤ 365 ∧
    (((153 * ((m + 9) % 12) + 2) / 5 + (d - 1)) = 365 → m = 2 ∧ d = 29) := by
  decide

theorem daysInMonth_le (y : Int) (m : Nat) : daysInMonth y m ≤ daysInMonth 0 m := by
  unfold daysInMonth
  split_ifs <;> simp_all [isLeap]

/-- The days/date conversion round-trips on every valid date with a
four-digit year. -/
theorem civilFromDays_daysFromCivil {y : Int} {m d : Nat} (hy0 : 0 ≤ y) (hy : y ≤ 9999)
    (hv : validDate y m d = true) : civilFromDays (daysFromCivil y m d) = (y, m, d) := by
  simp only [validDate, Bool.and_eq_true, decide_eq_true_eq] at hv
  obtain ⟨⟨⟨hm1, hm2⟩, hd1⟩, hd2⟩ := hv
  have hd2' : d ≤ daysInMonth 0 m := Nat.le_trans hd2 (daysInMonth_le y m)
  obtain ⟨mpRec, dRec, doyBound, doy365⟩ := month_core m hm1 hm2 d hd1 hd2'
  set y' : Int := if m ≤ 2 then y - 1 else y with hy'
  have hy'b : -1 ≤ y' ∧ y' ≤ 9999 := by
    constructor <;> (simp only [hy']; split <;> omega)
  set era : Int := y' / 400 with hera
  set yoe : Nat := (y' % 400).toNat with hyoe
  have hdecomp : y' = 400 * era + yoe ∧ yoe < 400 := by
    constructor <;> omega
  set mp : Nat := (m + 9) % 12 with hmp
  set doy : Nat := (153 * mp + 2) / 5 + (d - 1) with hdoy
  have hleap : doy = 365 → marLeap yoe = true := by
    intro h365
    obtain ⟨hm2eq, hd29⟩ := doy365 h365
    subst hm2eq
    have hyeq : y = 400 * era + yoe + 1 := by
      have hy'2 : y' = y - 1 := by simp [hy']
      omega
    have hleapy : isLeap y = true := by
      by_contra hne
      have hfalse : isLeap y = false := by revert hne; cases isLeap y <;> simp
      have h28 : daysInMonth y 2 = 28 := by simp [daysInMonth, hfalse]
      omega
    simp only [isLeap, Bool.and_eq_true, Bool.or_eq_true, Bool.not_eq_true',
      beq_iff_eq, beq_eq_false_iff_ne] at hleapy
    simp only [marLeap, Bool.and_eq_true, Bool.or_eq_true, Bool.not_eq_true',
      beq_iff_eq, beq_eq_false_iff_ne]
    omega
  obtain ⟨yoeRec, doeBound⟩ := yoe_recovery yoe doy hdecomp.2 (by omega) hleap
  have hdfc : daysFromCivil y m d = era * 146097 + ((yearStart yoe + doy : Nat) : Int) - 719468 := by
    simp only [daysFromCivil, ← hy', ← hera, ← hyoe, ← hmp, ← hdoy]
  rw [hdfc]
  have heraRec : (era * 146097 + ((yearStart yoe + doy : Nat) : Int) - 719468 + 719468) / 146097
      = era := by
    omega
  have hdoeRec : ((era * 146097 + ((yearStart yoe + doy : Nat) : Int) - 719468 + 719468)
      % 146097).toNat = yearStart yoe + doy := by
    omega
  have hdoyRec : yearStart yoe + doy - yearStart yoe = doy := by omega
  simp only [civilFromDays, heraRec, hdoeRec, yoeRec, hdoyRec, mpRec]
  have hmEq : (if mp < 10 then mp + 3 else mp - 9) = m := by
    by_cases h10 : mp < 10 <;> simp [h10] <;> omega
  rw [hmEq, dRec]
  have hyEq : era * 400 + yoe + (if m ≤ 2 then 1 else 0) = y := by
    by_cases hm2' : m ≤ 2 <;> simp only [hy', hm2', if_true, if_false] at hdecomp <;>
      simp [hm2'] <;> omega
  rw [hyEq]

/-- Epoch-seconds encoding of a midnight date round-trips to the calendar
date, for every valid date with a four-digit year. -/
theorem secsToDate_dateToSecs {y : Int} {m d : Nat} (hy0 : 0 ≤ y) (hy : y ≤ 9999)
    (hv : validDate y m d = true) : secsToDate (dateToSecs y m d) = (y, m, d) := by
  have hdiv : dateToSecs y m d / 86400 = daysFromCivil y m d := by
    unfold dateToSecs; omega
  rw [secsToDate, hdiv]
  exact civilFromDays_daysFromCivil hy0 hy hv

theorem taskLe_trans : ∀ a b c : Task, taskLe a b → taskLe b c → taskLe a c := by
  intro a b c hab hbc
  simp only [taskLe, decide_eq_true_eq] at *
  omega

theorem taskLe_total : ∀ a b : Task, taskLe a b || taskLe b a := by
  intro a b
  simp only [taskLe, Bool.or_eq_true, decide_eq_true_eq]
  omega

theorem decodeTask_encodeTask (t : Task) : decodeTask (encodeTask t) = some t := by
  obtain ⟨i, tx, ca, dd, pr, cat⟩ := t
  cases dd <;> cases pr <;> cases cat <;>
    simp [decodeTask, encodeTask, lookupField, encOptNum, encOptStr,
      decodeId, decodeStr, decodeNum, decodeOptNum, decodeOptStr]

theorem decodeTasks_encodeTasks (ts : List Task) :
    decodeTasks (encodeTasks ts) = some ts := by
  induction ts with
  | nil => rfl
  | cons t ts ih =>
    simp only [encodeTasks, decodeTasks, List.map_cons, decodeTaskList,
      decodeTask_encodeTask] at *
    rw [ih]

theorem sortTasks_perm (ts : List Task) : sortTasks ts ~ ts :=
  List.mergeSort_perm ts taskLe

theorem sortTasksDesc_perm (ts : List Task) : sortTasksDesc ts ~ ts :=
  List.mergeSort_perm ts (fun a b => taskLe b a)

theorem mem_sortTasks {t : Task} {ts : List Task} : t ∈ sortTasks ts ↔ t ∈ ts :=
  (sortTasks_perm ts).mem_iff

theorem length_sortTasks (ts : List Task) : (sortTasks ts).length = ts.length :=
  (sortTasks_perm ts).length_eq

theorem sortTasks_sorted (ts : List Task) :
    (sortTasks ts).Pairwise (fun a b => a.priority_order ≤ b.priority_order) := by
  have h := List.sorted_mergeSort taskLe_trans taskLe_total ts
  exact h.imp (by intro a b hab; simpa [taskLe] using hab)

theorem sortTasksDesc_sorted (ts : List Task) :
    (sortTasksDesc ts).Pairwise (fun a b => b.priority_order ≤ a.priority_order) := by
  have htr : ∀ a b c : Task, taskLe b a → taskLe c b → taskLe c a :=
    fun a b c h1 h2 => taskLe_trans c b a h2 h1
  have hto : ∀ a b : Task, taskLe b a || taskLe a b :=
    fun a b => taskLe_total b a
  have h := @List.sorted_mergeSort Task (fun a b => taskLe b a) htr hto ts
  exact h.imp (by intro a b hab; simpa [taskLe] using hab)

theorem sortTasks_of_sorted {ts : List Task} (h : ts.Pairwise fun a b => taskLe a b) :
    sortTasks ts = ts :=
  List.mergeSort_of_sorted h

theorem pair_sublist_sortTasks {a b : Task} {ts : List Task}
    (hab : taskLe a b) (h : [a, b] <+ ts) : [a, b] <+ sortTasks ts :=
  List.pair_sublist_mergeSort taskLe_trans taskLe_total hab h

theorem renderRows_map_snd (cat : Option String) (n : Nat) (l : List Task) :
    (renderRows cat n l).map Prod.snd = l.filter (matchesCategory cat) := by
  induction l generalizing n with
  | nil => rfl
  | cons t ts ih =>
    by_cases h : matchesCategory cat t <;>
      simp [renderRows, h, List.filter_cons, ih]

theorem renderRows_map_fst (cat : Option String) (n : Nat) (l : List Task) :
    (renderRows cat n l).map Prod.fst =
      List.range' n (l.filter (matchesCategory cat)).length := by
  induction l generalizing n with
  | nil => rfl
  | cons t ts ih =>
    by_cases h : matchesCategory cat t <;>
      simp [renderRows, h, List.filter_cons, ih, List.range'_succ]

theorem collect_encode (ts : List Task) :
    collect_tasks (.jsonContent (encodeTasks ts)) = .ok ts := by
  simp [collect_tasks, decodeTasks_encodeTasks]

theorem fileTasks_encode (ts : List Task) :
    fileTasks (.stored (.jsonContent (encodeTasks ts))) = ts := by
  simp [fileTasks, collect_tasks, decodeTasks_encodeTasks]

theorem add_task_eval (ts : List Task) (t : Task) :
    add_task (.stored (.jsonContent (encodeTasks ts))) t =
      (.ok (), .stored (.jsonContent (encodeTasks
        (sortTasks (ts ++ [{ t with id := ts.length + 1 }]))))) := by
  simp [add_task, collect_tasks, decodeTasks_encodeTasks]

theorem add_task_missing_eval (t : Task) :
    add_task .missing t =
      (.ok (), .stored (.jsonContent (encodeTasks (sortTasks [{ t with id := 1 }])))) := by
  simp [add_task, collect_tasks]

theorem complete_task_eval (ts : List Task) (k : Nat) (h1 : 1 ≤ k) (h2 : k ≤ ts.length) :
    complete_task (.stored (.jsonContent (encodeTasks ts))) k =
      (.ok (), .stored (.jsonContent (encodeTasks (sortTasks (ts.eraseIdx (k - 1)))))) := by
  have hcond : ¬(k = 0 ∨ ts.length < k) := by omega
  simp [complete_task, collect_tasks, decodeTasks_encodeTasks, hcond]

/-! ### Claim theorems -/

/-- Claim C9: serializing a collection of task records to the JSON file
format and then loading it back yields an equal collection, field for
field (id, text, created_at, due_date, priority, category). -/
theorem serialize_load_roundtrip (ts : List Task) :
    collect_tasks (.jsonContent (encodeTasks ts)) = .ok ts := by
  simp [collect_tasks, decodeTasks_encodeTasks]

/-- Claim C10: a task whose priority string is anything other than exactly
"high", "medium" or "low" has priority rank 4, the same as a task with no
priority, so every sort comparison treats the two identically. -/
theorem unknown_priority_rank_four (t u : Task) (s : String)
    (hs1 : s ≠ "high") (hs2 : s ≠ "medium") (hs3 : s ≠ "low")
    (ht : t.priority = some s) (hu : u.priority = none) :
    t.priority_order = 4 ∧ t.priority_order = u.priority_order ∧
      taskLe t u = true ∧ taskLe u t = true := by
  have h4 : t.priority_order = 4 := by
    unfold Task.priority_order
    rw [ht]
    split <;> simp_all
  have hu4 : u.priority_order = 4 := by
    unfold Task.priority_order
    rw [hu]
  refine ⟨h4, by rw [h4, hu4], by simp [taskLe, h4, hu4], by simp [taskLe, h4, hu4]⟩

/-- Witness for C10 at the capitalized priority string "High". -/
theorem unknown_priority_rank_four_witness :
    (⟨0, "x", 0, none, some "High", none⟩ : Task).priority_order = 4 ∧
      (⟨0, "x", 0, none, some "High", none⟩ : Task).priority_order =
        (⟨0, "y", 0, none, none, none⟩ : Task).priority_order ∧
      taskLe ⟨0, "x", 0, none, some "High", none⟩ ⟨0, "y", 0, none, none, none⟩ = true ∧
      taskLe ⟨0, "y", 0, none, none, none⟩ ⟨0, "x", 0, none, some "High", none⟩ = true :=
  unknown_priority_rank_four _ _ "High" (by decide) (by decide) (by decide) rfl rfl

/-- Claim C5: for every non-empty due-date string that does not match the
YYYY-MM-DD pattern, the Add operation fails with InvalidInput and the
journal file is unchanged (the failure happens before the file is read or
written). -/
theorem malformed_due_date_rejected (fs : FileState) (text s : String) (now : Int)
    (p c : String) (_hne : s ≠ "") (hp : datePattern s = false) :
    addOperation fs text (some s) now p c = (.error .invalidInput, fs) ∧
      Task.new text (some s) now = .error .invalidInput := by
  have h2 : Task.new text (some s) now = .error .invalidInput := by
    simp [Task.new, hp]
  exact ⟨by simp [addOperation, h2], h2⟩

/-- Witness for C5 at the malformed due-date string "2022/12/31". -/
theorem malformed_due_date_rejected_witness :
    addOperation .missing "t" (some "2022/12/31") 0 "low" "home" =
        (.error .invalidInput, .missing) ∧
      Task.new "t" (some "2022/12/31") 0 = .error .invalidInput :=
  malformed_due_date_rejected .missing "t" "2022/12/31" 0 "low" "home"
    (by decide) (by decide)

/-- Claim C1: on every successful mutating operation (Add or Complete) the
collection written to the journal file is the re-sort of the full updated
collection, ascending by priority rank; the persisted array is sorted by
rank, not insertion order. -/
theorem mutating_ops_persist_sorted (fs : FileState) (t : Task) (pos : Nat) :
    (∀ fs', add_task fs t = (.ok (), fs') →
      ∃ (ts0 ts : List Task), ts = sortTasks (ts0 ++ [{ t with id := ts0.length + 1 }]) ∧
        fs' = .stored (.jsonContent (encodeTasks ts)) ∧
        ts.Pairwise (fun a b => a.priority_order ≤ b.priority_order) ∧
        List.Perm ts (ts0 ++ [{ t with id := ts0.length + 1 }])) ∧
    (∀ fs', complete_task fs pos = (.ok (), fs') →
      ∃ (ts0 ts : List Task), ts = sortTasks (ts0.eraseIdx (pos - 1)) ∧
        fs' = .stored (.jsonContent (encodeTasks ts)) ∧
        ts.Pairwise (fun a b => a.priority_order ≤ b.priority_order) ∧
        List.Perm ts (ts0.eraseIdx (pos - 1))) := by
  constructor
  · intro fs' h
    cases fs with
    | missing =>
      simp only [add_task, collect_tasks, Prod.mk.injEq] at h
      exact ⟨[], _, rfl, h.2.symm, sortTasks_sorted _, sortTasks_perm _⟩
    | stored c =>
      simp only [add_task] at h
      cases hc : collect_tasks c with
      | error e => simp [hc] at h
      | ok ts0 =>
        simp only [hc, Prod.mk.injEq] at h
        exact ⟨ts0, _, rfl, h.2.symm, sortTasks_sorted _, sortTasks_perm _⟩
  · intro fs' h
    cases fs with
    | missing => simp [complete_task] at h
    | stored c =>
      simp only [complete_task] at h
      cases hc : collect_tasks c with
      | error e => simp [hc] at h
      | ok ts0 =>
        simp only [hc] at h
        by_cases hcond : pos = 0 ∨ ts0.length < pos
        · simp [hcond] at h
        · rw [if_neg hcond] at h
          simp only [Prod.mk.injEq] at h
          exact ⟨ts0, _, rfl, h.2.symm, sortTasks_sorted _, sortTasks_perm _⟩

/-- Witness for C1: adding a first task to a missing journal file. -/
theorem mutating_ops_persist_sorted_witness :
    ∃ (ts0 ts : List Task),
      ts = sortTasks (ts0 ++ [{ (⟨0, "a", 0, none, none, none⟩ : Task) with
        id := ts0.length + 1 }]) ∧
      FileState.stored (.jsonContent (encodeTasks
          (sortTasks [⟨1, "a", 0, none, none, none⟩]))) =
        .stored (.jsonContent (encodeTasks ts)) ∧
      ts.Pairwise (fun a b => a.priority_order ≤ b.priority_order) ∧
      List.Perm ts (ts0 ++ [{ (⟨0, "a", 0, none, none, none⟩ : Task) with
        id := ts0.length + 1 }]) :=
  (mutating_ops_persist_sorted .missing ⟨0, "a", 0, none, none, none⟩ 1).1
    (.stored (.jsonContent (encodeTasks (sortTasks [⟨1, "a", 0, none, none, none⟩]))))
    (add_task_missing_eval _)

/-- Claim C2: on a store holding `n` tasks, Complete(0) and Complete(n+1)
fail with InvalidInput and leave the file contents untouched, while
Complete(k) for 1 ≤ k ≤ n succeeds, removes exactly the task at 1-based
position k of the loaded order, and persists a collection of length n-1. -/
theorem complete_position_bounds (c : JsonContent) (ts : List Task) (n : Nat)
    (hc : collect_tasks c = .ok ts) (hn : ts.length = n) :
    complete_task (.stored c) 0 = (.error .invalidInput, .stored c) ∧
    complete_task (.stored c) (n + 1) = (.error .invalidInput, .stored c) ∧
    (∀ k, 1 ≤ k → k ≤ n → ∃ ts',
      complete_task (.stored c) k = (.ok (), .stored (.jsonContent (encodeTasks ts'))) ∧
      List.Perm ts' (ts.eraseIdx (k - 1)) ∧ ts'.length = n - 1) := by
  subst hn
  refine ⟨by simp [complete_task, hc], by simp [complete_task, hc], ?_⟩
  intro k h1 h2
  have hcond : ¬(k = 0 ∨ ts.length < k) := by omega
  refine ⟨sortTasks (ts.eraseIdx (k - 1)), by simp [complete_task, hc, hcond], sortTasks_perm _, ?_⟩
  rw [length_sortTasks, List.length_eraseIdx_of_lt (by omega)]

/-- Witness for C2 on a one-task store. -/
theorem complete_position_bounds_witness :
    complete_task (.stored (.jsonContent (encodeTasks [⟨1, "a", 0, none, none, none⟩]))) 0 =
        (.error .invalidInput, .stored (.jsonContent (encodeTasks [⟨1, "a", 0, none, none, none⟩]))) ∧
    complete_task (.stored (.jsonContent (encodeTasks [⟨1, "a", 0, none, none, none⟩]))) 2 =
        (.error .invalidInput, .stored (.jsonContent (encodeTasks [⟨1, "a", 0, none, none, none⟩]))) ∧
    (∀ k, 1 ≤ k → k ≤ 1 → ∃ ts',
      complete_task (.stored (.jsonContent (encodeTasks [⟨1, "a", 0, none, none, none⟩]))) k =
        (.ok (), .stored (.jsonContent (encodeTasks ts'))) ∧
      List.Perm ts' ([(⟨1, "a", 0, none, none, none⟩ : Task)].eraseIdx (k - 1)) ∧
      ts'.length = 1 - 1) :=
  complete_position_bounds _ [⟨1, "a", 0, none, none, none⟩] 1
    (collect_encode _) rfl

/-- Claim C6: List displays exactly the tasks whose category matches the
filter (all tasks when no filter is given), numbered with a running
1-based display index, sorted in the requested direction — ascending
priority rank (high, medium, low, none) for "asc", reversed for "desc" —
with ties broken by stable original order. -/
theorem list_tasks_filter_sort (c : JsonContent) (ts : List Task) (cat : Option String)
    (hc : collect_tasks c = .ok ts) :
    (ts = [] → list_tasks (.stored c) cat "asc" = .ok .emptyMessage ∧
      list_tasks (.stored c) cat "desc" = .ok .emptyMessage) ∧
    (ts ≠ [] →
      list_tasks (.stored c) cat "asc" = .ok (.table (renderRows cat 1 (sortTasks ts))) ∧
      list_tasks (.stored c) cat "desc" = .ok (.table (renderRows cat 1 (sortTasksDesc ts)))) ∧
    ((renderRows cat 1 (sortTasks ts)).map Prod.snd = (sortTasks ts).filter (matchesCategory cat) ∧
      List.Perm ((renderRows cat 1 (sortTasks ts)).map Prod.snd)
        (ts.filter (matchesCategory cat)) ∧
      ((renderRows cat 1 (sortTasks ts)).map Prod.snd).Pairwise
        (fun a b => a.priority_order ≤ b.priority_order) ∧
      (renderRows cat 1 (sortTasks ts)).map Prod.fst =
        List.range' 1 ((sortTasks ts).filter (matchesCategory cat)).length ∧
      (∀ t : Task, t ∈ (renderRows cat 1 (sortTasks ts)).map Prod.snd ↔
        t ∈ ts ∧ matchesCategory cat t = true)) ∧
    ((renderRows cat 1 (sortTasksDesc ts)).map Prod.snd =
        (sortTasksDesc ts).filter (matchesCategory cat) ∧
      List.Perm ((renderRows cat 1 (sortTasksDesc ts)).map Prod.snd)
        (ts.filter (matchesCategory cat)) ∧
      ((renderRows cat 1 (sortTasksDesc ts)).map Prod.snd).Pairwise
        (fun a b => b.priority_order ≤ a.priority_order) ∧
      (renderRows cat 1 (sortTasksDesc ts)).map Prod.fst =
        List.range' 1 ((sortTasksDesc ts).filter (matchesCategory cat)).length) ∧
    (∀ a b : Task, a.priority_order = b.priority_order →
      List.Sublist [a, b] ts → List.Sublist [a, b] (sortTasks ts)) := by
  refine ⟨?_, ?_, ?_, ?_, ?_⟩
  · intro he
    subst he
    constructor <;> simp [list_tasks, hc, sortTasks, sortTasksDesc]
  · intro hne
    have hlen : ts.length ≠ 0 := fun h => hne (List.eq_nil_of_length_eq_zero h)
    have hasc : (sortTasks ts).isEmpty = false := by
      rw [List.isEmpty_eq_false]
      intro h
      exact hlen (by simpa [h] using (length_sortTasks ts).symm)
    have hdesc : (sortTasksDesc ts).isEmpty = false := by
      rw [List.isEmpty_eq_false]
      intro h
      exact hlen (by simpa [h] using ((sortTasksDesc_perm ts).length_eq).symm)
    constructor <;> simp [list_tasks, hc, hasc, hdesc]
  · refine ⟨renderRows_map_snd cat 1 _, ?_, ?_, ?_, ?_⟩
    · rw [renderRows_map_snd]
      exact (sortTasks_perm ts).filter _
    · rw [renderRows_map_snd]
      exact (sortTasks_sorted ts).filter _
    · rw [renderRows_map_fst]
    · intro t
      rw [renderRows_map_snd]
      simp [List.mem_filter, mem_sortTasks]
  · refine ⟨renderRows_map_snd cat 1 _, ?_, ?_, ?_⟩
    · rw [renderRows_map_snd]
      exact (sortTasksDesc_perm ts).filter _
    · rw [renderRows_map_snd]
      exact (sortTasksDesc_sorted ts).filter _
    · rw [renderRows_map_fst]
  · intro a b hpo hsub
    exact pair_sublist_sortTasks (by simp [taskLe]; omega) hsub

/-- Witness for C6: listing a one-task store ascending renders its table. -/
theorem list_tasks_filter_sort_witness :
    list_tasks (.stored (.jsonContent (encodeTasks [⟨1, "a", 0, none, none, none⟩]))) none "asc" =
      .ok (.table (renderRows none 1 (sortTasks [⟨1, "a", 0, none, none, none⟩]))) :=
  ((list_tasks_filter_sort _ _ none (collect_encode _)).2.1 (by decide)).1

/-- Claim C8: Search displays exactly the tasks whose text contains the
keyword as a case-sensitive substring, in the most recently persisted
order (no re-sorting, re-numbering or category filtering); an empty
result produces a "no tasks found" message rather than an error. -/
theorem search_substring_order (c : JsonContent) (ts : List Task) (kw : String)
    (hc : collect_tasks c = .ok ts) :
    (ts.filter (fun t => textContains t.text kw) = [] →
      search_tasks (.stored c) kw = .ok (.noMatches kw)) ∧
    (ts.filter (fun t => textContains t.text kw) ≠ [] →
      search_tasks (.stored c) kw =
        .ok (.table (ts.filter (fun t => textContains t.text kw)))) ∧
    List.Sublist (ts.filter (fun t => textContains t.text kw)) ts ∧
    (∀ t, t ∈ ts.filter (fun t => textContains t.text kw) ↔
      t ∈ ts ∧ textContains t.text kw = true) := by
  refine ⟨?_, ?_, List.filter_sublist ts, fun t => by simp [List.mem_filter]⟩
  · intro h
    simp [search_tasks, hc, h]
  · intro h
    simp [search_tasks, hc, h]

/-- Witness for C8 on a two-task store and the keyword "key". -/
theorem search_substring_order_witness :
    search_tasks (.stored (.jsonContent (encodeTasks
        [⟨1, "key task", 0, none, none, none⟩, ⟨2, "other", 0, none, none, none⟩]))) "key" =
      .ok (.table ([⟨1, "key task", 0, none, none, none⟩,
        (⟨2, "other", 0, none, none, none⟩ : Task)].filter
          (fun t => textContains t.text "key"))) :=
  (search_substring_order _ _ "key" (collect_encode _)).2.1 (by decide)

/-- Counterexample to claim C7: a missing backing file does not yield an
empty collection for List, Search or Complete — opening fails with a
not-found I/O error (and not with ParseError). -/
theorem load_missing_counterexample :
    list_tasks .missing none "asc" = .error .notFound ∧
    search_tasks .missing "x" = .error .notFound ∧
    complete_task .missing 1 = (.error .notFound, .missing) ∧
    ErrKind.notFound ≠ ErrKind.parseError := by
  exact ⟨rfl, rfl, rfl, by decide⟩

/-- Claim C7 amended: loading yields an empty collection (not an error)
when the file is empty, or when content ends prematurely (serde reports
an end-of-input error, which `collect_tasks` swallows); present content
that decodes as a JSON array of task records yields the stored
collection; present complete content that does not so decode fails with
ParseError.  A missing file is created (and treated as empty) by Add,
while List, Search and Complete fail on it with a not-found I/O error. -/
theorem load_behavior_amended :
    collect_tasks .emptyContent = .ok ([] : List Task) ∧
    collect_tasks .truncated = .ok ([] : List Task) ∧
    (∀ v ts, decodeTasks v = some ts → collect_tasks (.jsonContent v) = .ok ts) ∧
    (∀ v, decodeTasks v = none → collect_tasks (.jsonContent v) = .error .parseError) ∧
    (∀ t : Task, add_task .missing t = add_task (.stored .emptyContent) t) ∧
    (∀ cat so, list_tasks .missing cat so = .error .notFound) ∧
    (∀ kw, search_tasks .missing kw = .error .notFound) ∧
    (∀ pos, complete_task .missing pos = (.error .notFound, .missing)) := by
  refine ⟨rfl, rfl, ?_, ?_, fun t => rfl, fun cat so => rfl, fun kw => rfl, fun pos => rfl⟩
  · intro v ts h
    simp [collect_tasks, h]
  · intro v h
    simp [collect_tasks, h]

/-- Witness for C7 (amended): a decodable document loads, a non-array
document is a ParseError. -/
theorem load_behavior_amended_witness :
    collect_tasks (.jsonContent (encodeTasks [⟨1, "a", 0, none, none, none⟩])) =
        .ok [⟨1, "a", 0, none, none, none⟩] ∧
      collect_tasks (.jsonContent (.num 5)) = .error .parseError :=
  ⟨load_behavior_amended.2.2.1 _ [⟨1, "a", 0, none, none, none⟩]
      (decodeTasks_encodeTasks _),
    load_behavior_amended.2.2.2.1 (.num 5) rfl⟩

theorem parseYmd_fst_le {s : String} (hp : datePattern s = true) :
    (parseYmd s).1 ≤ 9999 := by
  unfold datePattern at hp
  unfold parseYmd
  split at hp
  next c1 c2 c3 c4 s1 c5 c6 s2 c7 c8 heq =>
    simp only [isDigitChar, Bool.and_eq_true, decide_eq_true_eq] at hp
    simp only [digitVal]
    omega
  next => simp at hp

/-- Counterexample to claim C4: the string "2022-13-01" matches the
YYYY-MM-DD digit pattern, yet Add fails with InvalidInput because chrono
rejects month 13. -/
theorem due_date_pattern_counterexample :
    datePattern "2022-13-01" = true ∧
    Task.new "t" (some "2022-13-01") 0 = .error .invalidInput ∧
    addOperation .missing "t" (some "2022-13-01") 0 "low" "x" =
      (.error .invalidInput, .missing) := by
  exact ⟨rfl, rfl, rfl⟩

/-- Claim C4 amended: for every due-date string matching the YYYY-MM-DD
pattern whose fields form a valid calendar date, Add succeeds and the
stored due-date round-trips to the same calendar date (same year, month,
day); pattern-matching strings that are not valid calendar dates are
rejected with InvalidInput. -/
theorem due_date_valid_roundtrip (s text : String) (now : Int) (y m d : Nat)
    (p cat : String) (hp : datePattern s = true) (hymd : parseYmd s = (y, m, d))
    (hv : validDate y m d = true) :
    Task.new text (some s) now = .ok ⟨0, text, now, some (dateToSecs y m d), none, none⟩ ∧
    secsToDate (dateToSecs y m d) = ((y : Int), m, d) ∧
    (∀ c0 ts, collect_tasks c0 = .ok ts →
      (addOperation (.stored c0) text (some s) now p cat).1 = .ok ()) := by
  have hnew : Task.new text (some s) now =
      .ok ⟨0, text, now, some (dateToSecs y m d), none, none⟩ := by
    simp [Task.new, hp, hymd, hv]
  have hy9999 : y ≤ 9999 := by
    have h := parseYmd_fst_le hp
    rw [hymd] at h
    exact h
  refine ⟨hnew, secsToDate_dateToSecs (Int.natCast_nonneg y) (by exact_mod_cast hy9999) hv, ?_⟩
  intro c0 ts hc
  simp [addOperation, hnew, add_task, hc]

/-- Witness for C4 (amended) at the leap-day string "2024-02-29". -/
theorem due_date_valid_roundtrip_witness :
    Task.new "t" (some "2024-02-29") 0 =
      .ok ⟨0, "t", 0, some (dateToSecs 2024 2 29), none, none⟩ ∧
    secsToDate (dateToSecs 2024 2 29) = (2024, 2, 29) ∧
    (addOperation (.stored .emptyContent) "t" (some "2024-02-29") 0 "low" "x").1 = .ok () := by
  have h := due_date_valid_roundtrip "2024-02-29" "t" 0 2024 2 29 "low" "x"
    rfl rfl (by decide)
  exact ⟨h.1, h.2.1, h.2.2 .emptyContent [] rfl⟩

theorem applyOp_add_cases {fs : FileState} (h : GoodFile fs) (a : String)
    (b : Option String) (c : Int) (p q : String) :
    applyOp fs (.addOp a b c p q) = fs ∨
    (GoodFile (applyOp fs (.addOp a b c p q)) ∧
      ∃ t : Task, t.id = (fileTasks fs).length + 1 ∧
        List.Perm (fileTasks (applyOp fs (.addOp a b c p q))) (fileTasks fs ++ [t])) := by
  cases hnew : Task.new a b c with
  | error e =>
    left
    simp [applyOp, addOperation, hnew]
  | ok t0 =>
    right
    cases fs with
    | missing =>
      have heq : applyOp .missing (.addOp a b c p q) =
          .stored (.jsonContent (encodeTasks (sortTasks
            [{ { t0 with priority := some p, category := some q } with id := 1 }]))) := by
        simp [applyOp, addOperation, hnew, add_task_missing_eval]
      rw [heq]
      refine ⟨⟨_, rfl⟩,
        { { t0 with priority := some p, category := some q } with id := 1 }, rfl, ?_⟩
      rw [fileTasks_encode]
      simpa using sortTasks_perm _
    | stored c0 =>
      obtain ⟨ts, rfl⟩ := h
      have heq : applyOp (FileState.stored (.jsonContent (encodeTasks ts)))
            (.addOp a b c p q) =
          .stored (.jsonContent (encodeTasks (sortTasks (ts ++
            [{ { t0 with priority := some p, category := some q } with
              id := ts.length + 1 }])))) := by
        simp [applyOp, addOperation, hnew, add_task_eval]
      rw [heq]
      refine ⟨⟨_, rfl⟩,
        { { t0 with priority := some p, category := some q } with id := ts.length + 1 },
        ?_, ?_⟩
      · rw [fileTasks_encode]
      · rw [fileTasks_encode, fileTasks_encode]
        exact sortTasks_perm _

theorem applyOp_done_cases {fs : FileState} (h : GoodFile fs) (pos : Nat) :
    applyOp fs (.doneOp pos) = fs ∨
    (GoodFile (applyOp fs (.doneOp pos)) ∧
      List.Perm (fileTasks (applyOp fs (.doneOp pos)))
        ((fileTasks fs).eraseIdx (pos - 1))) := by
  cases fs with
  | missing =>
    left
    simp [applyOp, complete_task]
  | stored c0 =>
    obtain ⟨ts, rfl⟩ := h
    by_cases hcond : pos = 0 ∨ ts.length < pos
    · left
      simp [applyOp, complete_task, collect_encode, hcond]
    · right
      have heval := complete_task_eval ts pos (by omega) (by omega)
      have heq : applyOp (FileState.stored (.jsonContent (encodeTasks ts))) (.doneOp pos) =
          .stored (.jsonContent (encodeTasks (sortTasks (ts.eraseIdx (pos - 1))))) := by
        simp [applyOp, heval]
      rw [heq]
      refine ⟨⟨_, rfl⟩, ?_⟩
      rw [fileTasks_encode, fileTasks_encode]
      exact sortTasks_perm _

theorem runOps_good_pos (ops : List Op) :
    ∀ fs : FileState, GoodFile fs → (∀ t ∈ fileTasks fs, 1 ≤ t.id) →
      GoodFile (runOps fs ops) ∧ ∀ t ∈ fileTasks (runOps fs ops), 1 ≤ t.id := by
  induction ops with
  | nil => exact fun fs h hp => ⟨h, hp⟩
  | cons op ops ih =>
    intro fs h hp
    have hstep : GoodFile (applyOp fs op) ∧ ∀ t ∈ fileTasks (applyOp fs op), 1 ≤ t.id := by
      cases op with
      | addOp a b c p q =>
        rcases applyOp_add_cases h a b c p q with heq | ⟨hg, t, hid, hperm⟩
        · rw [heq]; exact ⟨h, hp⟩
        · refine ⟨hg, fun u hu => ?_⟩
          rcases List.mem_append.mp (hperm.mem_iff.mp hu) with h1 | h2
          · exact hp u h1
          · rw [List.mem_singleton] at h2
            subst h2
            omega
      | doneOp pos =>
        rcases applyOp_done_cases h pos with heq | ⟨hg, hperm⟩
        · rw [heq]; exact ⟨h, hp⟩
        · exact ⟨hg, fun u hu => hp u (List.mem_of_mem_eraseIdx (hperm.mem_iff.mp hu))⟩
    exact ih (applyOp fs op) hstep.1 hstep.2

theorem runOps_addOnly (ops : List Op) :
    ∀ fs : FileState, (∀ op ∈ ops, ∃ a b c p q, op = Op.addOp a b c p q) →
      GoodFile fs →
      List.Perm ((fileTasks fs).map Task.id) (List.range' 1 (fileTasks fs).length) →
      GoodFile (runOps fs ops) ∧
        List.Perm ((fileTasks (runOps fs ops)).map Task.id)
          (List.range' 1 (fileTasks (runOps fs ops)).length) := by
  induction ops with
  | nil => exact fun fs _ h hinv => ⟨h, hinv⟩
  | cons op ops ih =>
    intro fs hall h hinv
    obtain ⟨a, b, c, p, q, rfl⟩ := hall op (List.mem_cons_self op ops)
    have hstep : GoodFile (applyOp fs (.addOp a b c p q)) ∧
        List.Perm ((fileTasks (applyOp fs (.addOp a b c p q))).map Task.id)
          (List.range' 1 (fileTasks (applyOp fs (.addOp a b c p q))).length) := by
      rcases applyOp_add_cases h a b c p q with heq | ⟨hg, t, hid, hperm⟩
      · rw [heq]; exact ⟨h, hinv⟩
      · refine ⟨hg, ?_⟩
        have hlen : (fileTasks (applyOp fs (.addOp a b c p q))).length =
            (fileTasks fs).length + 1 := by
          rw [hperm.length_eq, List.length_append, List.length_cons, List.length_nil]
        rw [hlen]
        have h1 : List.Perm ((fileTasks (applyOp fs (.addOp a b c p q))).map Task.id)
            ((fileTasks fs).map Task.id ++ [(fileTasks fs).length + 1]) := by
          have := hperm.map Task.id
          rw [List.map_append, List.map_cons, List.map_nil, hid] at this
          exact this
        have h2 : List.Perm ((fileTasks fs).map Task.id ++ [(fileTasks fs).length + 1])
            (List.range' 1 ((fileTasks fs).length) ++ [(fileTasks fs).length + 1]) :=
          hinv.append_right _
        have h3 : List.range' 1 ((fileTasks fs).length) ++ [(fileTasks fs).length + 1] =
            List.range' 1 ((fileTasks fs).length + 1) := by
          rw [List.range'_concat]
          simp [Nat.add_comm]
        rw [← h3]
        exact h1.trans h2
    exact ih (applyOp fs (.addOp a b c p q))
      (fun op hop => hall op (List.mem_cons_of_mem _ hop)) hstep.1 hstep.2

/-- Counterexample to claim C3: after Add "a", Add "b", Complete 1,
Add "c" (all priority "low"), the store holds two tasks that both carry
id 2 — ids are not unique once a Complete has removed a task. -/
theorem ids_unique_counterexample :
    (fileTasks (runOps .missing
      [.addOp "a" none 0 "low" "x", .addOp "b" none 0 "low" "x",
       .doneOp 1, .addOp "c" none 0 "low" "x"])).map Task.id = [2, 2] ∧
    ¬ ((fileTasks (runOps .missing
      [.addOp "a" none 0 "low" "x", .addOp "b" none 0 "low" "x",
       .doneOp 1, .addOp "c" none 0 "low" "x"])).map Task.id).Nodup := by
  have hs1 : sortTasks [⟨1, "a", 0, none, some "low", some "x"⟩] =
      [⟨1, "a", 0, none, some "low", some "x"⟩] := by
    simp [sortTasks]
  have h1 : applyOp .missing (.addOp "a" none 0 "low" "x") =
      .stored (.jsonContent (encodeTasks [⟨1, "a", 0, none, some "low", some "x"⟩])) := by
    simp [applyOp, addOperation, Task.new, add_task_missing_eval, hs1]
  have hs2 : sortTasks [⟨1, "a", 0, none, some "low", some "x"⟩,
      ⟨2, "b", 0, none, some "low", some "x"⟩] =
      [⟨1, "a", 0, none, some "low", some "x"⟩, ⟨2, "b", 0, none, some "low", some "x"⟩] :=
    sortTasks_of_sorted (by decide)
  have h2 : applyOp (.stored (.jsonContent (encodeTasks
        [⟨1, "a", 0, none, some "low", some "x"⟩]))) (.addOp "b" none 0 "low" "x") =
      .stored (.jsonContent (encodeTasks [⟨1, "a", 0, none, some "low", some "x"⟩,
        ⟨2, "b", 0, none, some "low", some "x"⟩])) := by
    simp [applyOp, addOperation, Task.new, add_task_eval, hs2]
  have hs3 : sortTasks [⟨2, "b", 0, none, some "low", some "x"⟩] =
      [⟨2, "b", 0, none, some "low", some "x"⟩] := by
    simp [sortTasks]
  have h3 : applyOp (.stored (.jsonContent (encodeTasks
        [⟨1, "a", 0, none, some "low", some "x"⟩,
         ⟨2, "b", 0, none, some "low", some "x"⟩]))) (.doneOp 1) =
      .stored (.jsonContent (encodeTasks [⟨2, "b", 0, none, some "low", some "x"⟩])) := by
    have heval := complete_task_eval [⟨1, "a", 0, none, some "low", some "x"⟩,
      ⟨2, "b", 0, none, some "low", some "x"⟩] 1 (by omega) (by simp)
    simp only [List.eraseIdx] at heval
    simp [applyOp, heval, hs3]
  have hs4 : sortTasks [⟨2, "b", 0, none, some "low", some "x"⟩,
      ⟨2, "c", 0, none, some "low", some "x"⟩] =
      [⟨2, "b", 0, none, some "low", some "x"⟩, ⟨2, "c", 0, none, some "low", some "x"⟩] :=
    sortTasks_of_sorted (by decide)
  have h4 : applyOp (.stored (.jsonContent (encodeTasks
        [⟨2, "b", 0, none, some "low", some "x"⟩]))) (.addOp "c" none 0 "low" "x") =
      .stored (.jsonContent (encodeTasks [⟨2, "b", 0, none, some "low", some "x"⟩,
        ⟨2, "c", 0, none, some "low", some "x"⟩])) := by
    simp [applyOp, addOperation, Task.new, add_task_eval, hs4]
  have hrun : runOps .missing
      [.addOp "a" none 0 "low" "x", .addOp "b" none 0 "low" "x",
       .doneOp 1, .addOp "c" none 0 "low" "x"] =
      .stored (.jsonContent (encodeTasks [⟨2, "b", 0, none, some "low", some "x"⟩,
        ⟨2, "c", 0, none, some "low", some "x"⟩])) := by
    simp only [runOps, h1, h2, h3, h4]
  rw [hrun, fileTasks_encode]
  exact ⟨rfl, by decide⟩

/-- Claim C3 amended: every Add inserts its task with id = (current
length + 1), a positive integer, and every store reachable from a missing
journal by Add/Complete sequences holds only positive ids; over Add-only
sequences the ids are exactly 1..n and hence unique, but after a Complete
a later Add can duplicate an existing id. -/
theorem ids_assignment_amended (ops : List Op) :
    (∀ t ∈ fileTasks (runOps .missing ops), 1 ≤ t.id) ∧
    ((∀ op ∈ ops, ∃ a b c p q, op = Op.addOp a b c p q) →
      List.Perm ((fileTasks (runOps .missing ops)).map Task.id)
        (List.range' 1 (fileTasks (runOps .missing ops)).length) ∧
      ((fileTasks (runOps .missing ops)).map Task.id).Nodup) ∧
    (∀ c0 ts t, collect_tasks c0 = .ok ts →
      ∃ ts', add_task (.stored c0) t = (.ok (), .stored (.jsonContent (encodeTasks ts'))) ∧
        List.Perm (ts'.map Task.id) (ts.map Task.id ++ [ts.length + 1])) := by
  refine ⟨?_, ?_, ?_⟩
  · exact (runOps_good_pos ops .missing trivial (by simp [fileTasks])).2
  · intro hall
    have h := (runOps_addOnly ops .missing hall trivial (by simp [fileTasks])).2
    refine ⟨h, h.nodup_iff.mpr (List.nodup_range' 1 _)⟩
  · intro c0 ts t hc
    refine ⟨sortTasks (ts ++ [{ t with id := ts.length + 1 }]), by simp [add_task, hc], ?_⟩
    have h := (sortTasks_perm (ts ++ [{ t with id := ts.length + 1 }])).map Task.id
    rw [List.map_append, List.map_cons, List.map_nil] at h
    exact h

/-- Witness for C3 (amended): one Add on a missing journal yields ids
exactly 1..1, and Add on an empty store inserts with id 1. -/
theorem ids_assignment_amended_witness :
    List.Perm ((fileTasks (runOps .missing [Op.addOp "a" none 0 "low" "x"])).map Task.id)
      (List.range' 1 (fileTasks (runOps .missing [Op.addOp "a" none 0 "low" "x"])).length) ∧
    (∃ ts', add_task (.stored .emptyContent) ⟨0, "b", 0, none, none, none⟩ =
        (.ok (), .stored (.jsonContent (encodeTasks ts'))) ∧
      List.Perm (ts'.map Task.id) [1]) :=
  ⟨((ids_assignment_amended [Op.addOp "a" none 0 "low" "x"]).2.1
      (fun op hop => ⟨"a", none, 0, "low", "x", by
        rw [List.mem_singleton] at hop; exact hop⟩)).1,
    (ids_assignment_amended []).2.2 .emptyContent [] ⟨0, "b", 0, none, none, none⟩ rfl⟩

end RustyTasks
